import Mathlib

/-!
Shallow embedding of the registration / email-verification subsystem of the
Nestoric backend (src/routes/auth.js, second — PendingRegistration-based —
variant; src/models/PendingRegistration.js; the User model).

Conventions of the embedding:
* Machine state is the pair of Mongo collections (`users`, `pendings`) as
  lists in insertion order; `findOne` is `List.find?`.
* Request bodies are records of strings; a missing or empty field is the
  empty string (JS falsiness of `undefined`/`""` on the checked fields).
* Nondeterministic effects (bcrypt hash, crypto.randomBytes token, clock,
  mail delivery success) are explicit oracle parameters of each operation.
* The mongoose schema setters `lowercase`+`trim` on email fields (applied to
  writes and, per mongoose ≥ 6, to query filter values) are modelled by
  `normEmail`; the `trim` setter on fullName by `trimStr`.
-/

namespace Nestoric

/-- JS `x.toLowerCase()` on the ASCII range, per character. -/
def lowerChar (c : Char) : Char :=
  if 65 ≤ c.toNat ∧ c.toNat ≤ 90 then Char.ofNat (c.toNat + 32) else c

/-- Whitespace stripped by JS `trim()` (ASCII subset). -/
def isSpace (c : Char) : Bool :=
  c = ' ' || c = '\t' || c = '\n' || c = '\r'

/-- Strip leading and trailing whitespace from a character list. -/
def trimList (l : List Char) : List Char :=
  ((l.dropWhile isSpace).reverse.dropWhile isSpace).reverse

/-- JS `s.trim()`. -/
def trimStr (s : String) : String := ⟨trimList s.data⟩

/-- JS `s.toLowerCase()`. -/
def lowerStr (s : String) : String := ⟨s.data.map lowerChar⟩

/-- The mongoose `lowercase: true, trim: true` setter pair on email fields. -/
def normEmail (s : String) : String := lowerStr (trimStr s)

/-- JS `x || null` for an optional string field: empty string collapses to null. -/
def strOrNone (o : Option String) : Option String :=
  match o with
  | none => none
  | some s => if s = "" then none else some s

/-- A PendingRegistration document (models/PendingRegistration.js). -/
structure Pending where
  email : String
  passwordHash : String
  fullName : String
  phone : Option String
  token : String
  expiresAt : Nat
deriving DecidableEq, Repr

/-- A User document (models/User.js), restricted to the fields this
subsystem reads or writes. -/
structure Account where
  email : String
  password : Option String
  fullName : String
  phone : Option String
  role : String
  authProvider : String
  isEmailVerified : Bool
  googleId : Option String
  avatarUrl : Option String
deriving DecidableEq, Repr

/-- The persistent state: both collections, in insertion order. -/
structure DB where
  users : List Account
  pendings : List Pending
deriving DecidableEq, Repr

/-- 24 hours in milliseconds (`24 * 60 * 60 * 1000`). -/
def dayMs : Nat := 24 * 60 * 60 * 1000

/-- The JWT claim set `{ userId, email, role }` (ids are not modelled). -/
structure Claims where
  email : String
  role : String
deriving DecidableEq, Repr

/-- The `user` object of the JSON responses. -/
structure Profile where
  email : String
  fullName : String
  role : String
  avatarUrl : Option String
  phone : Option String
deriving DecidableEq, Repr

def Account.claims (u : Account) : Claims := ⟨u.email, u.role⟩

/-- The response `user` payload: `{ email, fullName, role, avatarUrl,
phone: user.phone || null }`. -/
def Account.profile (u : Account) : Profile :=
  ⟨u.email, u.fullName, u.role, u.avatarUrl, strOrNone u.phone⟩

/-! ### Store helpers -/

/-- `PendingRegistration.findOneAndUpdate({email}, doc, {upsert:true})`:
replace the (unique) record with this email, or append a new one. -/
def upsertPending (l : List Pending) (e : String) (p : Pending) : List Pending :=
  if l.any (fun q => q.email = e) then l.map (fun q => if q.email = e then p else q)
  else l ++ [p]

/-- `PendingRegistration.deleteOne({_id: pending._id})`: remove the first
occurrence of the fetched document. -/
def erasePending : List Pending → Pending → List Pending
  | [], _ => []
  | q :: l, p => if q = p then l else q :: erasePending l p

/-- `pending.save()` after mutating a fetched document in place: replace its
first occurrence by the mutated version. -/
def replacePending : List Pending → Pending → Pending → List Pending
  | [], _, _ => []
  | q :: l, p, p' => if q = p then p' :: l else q :: replacePending l p p'

/-- `user.save()` after mutating a fetched document in place. -/
def replaceUser : List Account → Account → Account → List Account
  | [], _, _ => []
  | q :: l, u, u' => if q = u then u' :: l else q :: replaceUser l u u'

/-! ### POST /signup (routes/auth.js, PendingRegistration variant) -/

/-- The body of `POST /signup`. -/
structure SignupInput where
  email : String
  password : String
  fullName : String
  phone : Option String
deriving DecidableEq, Repr

inductive SignupResult
  /-- 400 `Please provide email, password, and full name`. -/
  | missingFields
  /-- 400 `Password must be at least 6 characters`. -/
  | passwordTooShort
  /-- 400 `Email already registered`. -/
  | emailAlreadyRegistered
  /-- 201 `{ requiresVerification, message, email }`. -/
  | created (requiresVerification : Bool) (message : String) (email : String)
deriving DecidableEq, Repr

/-- Is the result one of the 400 input-validation rejections? -/
def SignupResult.isValidationError : SignupResult → Bool
  | .missingFields => true
  | .passwordTooShort => true
  | _ => false

/-- `router.post('/signup')`. Oracles: `hashed` (bcrypt digest of the
password), `rawToken` (crypto.randomBytes hex), `now` (clock, ms),
`mailOk` (whether `sendVerificationEmail` resolves — its failure is caught
and only logged). -/
def signup (db : DB) (inp : SignupInput) (hashed rawToken : String) (now : Nat)
    (mailOk : Bool) : SignupResult × DB :=
  if inp.email = "" ∨ inp.password = "" ∨ inp.fullName = "" then
    (.missingFields, db)
  else if inp.password.length < 6 then
    (.passwordTooShort, db)
  else if db.users.any (fun u => u.email = normEmail inp.email) then
    (.emailAlreadyRegistered, db)
  else
    let p : Pending :=
      ⟨normEmail inp.email, hashed, trimStr inp.fullName, strOrNone inp.phone,
       rawToken, now + dayMs⟩
    let db' : DB := ⟨db.users, upsertPending db.pendings (normEmail inp.email) p⟩
    -- mail failure is swallowed: the response below is sent either way
    (.created true "Please check your email to verify your account." inp.email, db')

/-! ### POST /login -/

inductive LoginResult
  /-- 400 `Please provide email and password`. -/
  | missingFields
  /-- 401 `Invalid email or password` (unknown email or wrong password). -/
  | invalidCredentials
  /-- 403 `{ error: 'EMAIL_NOT_VERIFIED', message, email }`. -/
  | emailNotVerified (email : String)
  /-- 500 (e.g. `bcrypt.compare` against a missing password hash throws). -/
  | serverError
  /-- 200 `{ user, token }`. -/
  | ok (user : Profile) (claims : Claims)
deriving Repr

/-- `router.post('/login')`. `checkPw pw hash` is the oracle for
`bcrypt.compare(pw, hash)`. -/
def login (db : DB) (email password : String)
    (checkPw : String → String → Bool) : LoginResult :=
  if email = "" ∨ password = "" then .missingFields
  else
    match db.users.find? (fun u => u.email = normEmail email) with
    | none => .invalidCredentials
    | some u =>
      if u.isEmailVerified = false ∧ u.authProvider ≠ "google" then
        .emailNotVerified u.email
      else
        match u.password with
        | none => .serverError
        | some h =>
          if checkPw password h then .ok u.profile u.claims
          else .invalidCredentials

/-! ### GET /check-verification -/

inductive CheckResult
  /-- 400 `{ verified: false }` (missing email). -/
  | badRequest
  /-- 200 `{ verified: false }`. -/
  | notVerified
  /-- 200 `{ verified: true, token, user }`. -/
  | verified (claims : Claims) (user : Profile)
deriving DecidableEq, Repr

/-- `router.get('/check-verification')`: a pure read; on the hit branch it
signs a JWT (modelled by the claim set) and echoes the profile. -/
def checkVerification (db : DB) (email : String) : CheckResult × DB :=
  if email = "" then (.badRequest, db)
  else
    match db.users.find? (fun u => u.email = normEmail email ∧ u.isEmailVerified) with
    | none => (.notVerified, db)
    | some u => (.verified u.claims u.profile, db)

/-! ### GET /verify-email/:token -/

inductive VerifyResult
  /-- 400 `Invalid or expired link` page. -/
  | invalidOrExpired
  /-- 200 `Already verified!` page (double-click protection branch). -/
  | alreadyVerified
  /-- 200 `Email verified!` page. -/
  | verified
deriving DecidableEq, Repr

/-- The `User.create` document of the verified branch: fields copied from
the pending record, `role: 'client'`, schema defaults for the rest,
`isEmailVerified: true`. -/
def accountOfPending (p : Pending) : Account :=
  ⟨normEmail p.email, some p.passwordHash, trimStr p.fullName,
   (strOrNone p.phone).map trimStr, "client", "local", true, none, none⟩

/-- `router.get('/verify-email/:token')`. -/
def verifyEmail (db : DB) (token : String) (now : Nat) : VerifyResult × DB :=
  match db.pendings.find? (fun p => p.token = token) with
  | none => (.invalidOrExpired, db)
  | some p =>
    if p.expiresAt < now then
      (.invalidOrExpired, ⟨db.users, erasePending db.pendings p⟩)
    else if db.users.any (fun u => u.email = normEmail p.email) then
      (.alreadyVerified, ⟨db.users, erasePending db.pendings p⟩)
    else
      (.verified, ⟨db.users ++ [accountOfPending p], erasePending db.pendings p⟩)

/-! ### POST /resend-verification -/

inductive ResendResult
  /-- 400 `Email is required`. -/
  | missingEmail
  /-- 400 `Email is already verified. Please sign in.` -/
  | alreadyVerified
  /-- 404 `No pending registration found. Please register again.` -/
  | noPending
  /-- 200 `Verification email resent successfully.` -/
  | ok
  /-- 500 — `sendVerificationEmail` rejected and the outer catch fired. -/
  | mailFailed
deriving DecidableEq, Repr

/-- `router.post('/resend-verification')`. The mail call is NOT wrapped in a
local try/catch: its failure reaches the outer handler as a 500, after the
token/expiry update has already been saved. -/
def resend (db : DB) (email rawToken : String) (now : Nat) (mailOk : Bool) :
    ResendResult × DB :=
  if email = "" then (.missingEmail, db)
  else if db.users.any (fun u => u.email = normEmail email) then
    (.alreadyVerified, db)
  else
    match db.pendings.find? (fun p => p.email = normEmail email) with
    | none => (.noPending, db)
    | some p =>
      let p' : Pending := { p with token := rawToken, expiresAt := now + dayMs }
      let db' : DB := ⟨db.users, replacePending db.pendings p p'⟩
      if mailOk then (.ok, db') else (.mailFailed, db')

/-! ### POST /google -/

/-- A decoded Firebase ID token (`admin.auth().verifyIdToken`). -/
structure GoogleDecoded where
  uid : String
  email : Option String
  name : Option String
  picture : Option String
deriving DecidableEq, Repr

inductive GoogleResult
  /-- 400 `Firebase ID token is required`. -/
  | missingToken
  /-- 401 `Invalid or expired Google token`. -/
  | invalidToken
  /-- 400 `Google account must have an email`. -/
  | noEmail
  /-- 200 `{ user, token }`. -/
  | ok (user : Profile) (claims : Claims)
deriving DecidableEq, Repr

/-- JS `email.split('@')[0]`. -/
def localPart (s : String) : String := ⟨s.data.takeWhile (fun c => c ≠ '@')⟩

/-- JS falsiness of an optional string (`!x`). -/
def strFalsy (o : Option String) : Bool :=
  match o with
  | none => true
  | some s => s = ""

/-- `router.post('/google')`. `idTokenPresent` models a non-falsy
`req.body.idToken`; `decoded = none` models a verification failure. -/
def googleSignIn (db : DB) (idTokenPresent : Bool) (decoded : Option GoogleDecoded) :
    GoogleResult × DB :=
  if idTokenPresent = false then (.missingToken, db)
  else
    match decoded with
    | none => (.invalidToken, db)
    | some d =>
      match strOrNone d.email with
      | none => (.noEmail, db)
      | some em =>
        match db.users.find?
            (fun u => u.googleId = some d.uid ∨ u.email = normEmail em) with
        | some u =>
          if u.googleId = none then
            let u' : Account :=
              { u with googleId := some d.uid, authProvider := "google",
                       avatarUrl :=
                         if strFalsy u.avatarUrl ∧ (strOrNone d.picture).isSome
                         then strOrNone d.picture else u.avatarUrl }
            (.ok u'.profile u'.claims, ⟨replaceUser db.users u u', db.pendings⟩)
          else
            (.ok u.profile u.claims, db)
        | none =>
          let u : Account :=
            ⟨normEmail em, none,
             trimStr ((strOrNone d.name).getD (localPart em)),
             none, "client", "google", true, some d.uid, strOrNone d.picture⟩
          (.ok u.profile u.claims, ⟨db.users ++ [u], db.pendings⟩)

/-! ### The operations as state transformers -/

/-- One inbound request of the subsystem, with its oracle inputs.
`google` is listed separately because claim C2 distinguishes it. -/
inductive Op
  | signup (inp : SignupInput) (hashed rawToken : String) (now : Nat) (mailOk : Bool)
  | login (email password : String) (checkPw : String → String → Bool)
  | verifyEmail (token : String) (now : Nat)
  | resend (email rawToken : String) (now : Nat) (mailOk : Bool)
  | checkVerification (email : String)

/-- The state transition of one request (login and check-verification
perform no writes). -/
def applyOp (op : Op) (db : DB) : DB :=
  match op with
  | .signup inp h t now m => (signup db inp h t now m).2
  | .login _ _ _ => db
  | .verifyEmail t now => (verifyEmail db t now).2
  | .resend e t now m => (resend db e t now m).2
  | .checkVerification e => (checkVerification db e).2

/-- Well-formedness maintained by the schemas: pending emails are stored in
normalized form (schema setters) and are unique (unique index), and no
email has both a pending record and an account (claim C2's invariant). -/
def DB.inv (db : DB) : Prop :=
  (∀ p ∈ db.pendings, normEmail p.email = p.email) ∧
  (db.pendings.map Pending.email).Nodup ∧
  (∀ p ∈ db.pendings, ∀ u ∈ db.users, u.email ≠ p.email)

instance (db : DB) : Decidable db.inv := by
  unfold DB.inv; infer_instance

/-! ### Normalization lemmas: `normEmail` is idempotent -/

theorem toNat_ofNat_lower {n : Nat} (h1 : 65 ≤ n) (h2 : n ≤ 90) :
    (Char.ofNat (n + 32)).toNat = n + 32 := by
  interval_cases n <;> decide

theorem char_eq_of_toNat {c : Char} {n : Nat} (h : c.toNat = n) : c = Char.ofNat n := by
  rw [← h, Char.ofNat_toNat]

theorem isSpace_false_of_toNat {x : Char} (h : 33 ≤ x.toNat) : isSpace x = false := by
  unfold isSpace
  simp only [Bool.or_eq_false_iff, decide_eq_false_iff_not]
  refine ⟨⟨⟨?_, ?_⟩, ?_⟩, ?_⟩ <;> intro he <;> subst he <;> simp at h

theorem lowerChar_idem (c : Char) : lowerChar (lowerChar c) = lowerChar c := by
  unfold lowerChar
  by_cases h : 65 ≤ c.toNat ∧ c.toNat ≤ 90
  · rw [if_pos h, if_neg]
    rw [toNat_ofNat_lower h.1 h.2]
    omega
  · rw [if_neg h, if_neg h]

theorem isSpace_lowerChar (c : Char) : isSpace (lowerChar c) = isSpace c := by
  unfold lowerChar
  by_cases h : 65 ≤ c.toNat ∧ c.toNat ≤ 90
  · rw [if_pos h]
    rw [isSpace_false_of_toNat (by rw [toNat_ofNat_lower h.1 h.2]; omega),
        isSpace_false_of_toNat (by omega)]
  · rw [if_neg h]

theorem dropWhile_eq_self_of_head {p : Char → Bool} {l : List Char}
    (h : ∀ c, l.head? = some c → p c = false) : l.dropWhile p = l := by
  cases l with
  | nil => rfl
  | cons c l => rw [List.dropWhile_cons, if_neg (by simp [h c rfl])]

theorem head_dropWhile_false (p : Char → Bool) (l : List Char) :
    ∀ c, (l.dropWhile p).head? = some c → p c = false := by
  induction l with
  | nil => intro c h; simp at h
  | cons a l ih =>
    intro c h
    rw [List.dropWhile_cons] at h
    by_cases ha : p a
    · rw [if_pos ha] at h; exact ih c h
    · rw [if_neg ha] at h
      simp at h
      rw [← h]
      simpa using ha

theorem dropWhile_idem (p : Char → Bool) (l : List Char) :
    (l.dropWhile p).dropWhile p = l.dropWhile p :=
  dropWhile_eq_self_of_head (head_dropWhile_false p l)

/-- Strip leading whitespace. -/
def trimL (l : List Char) : List Char := l.dropWhile isSpace

/-- Strip trailing whitespace. -/
def trimR (l : List Char) : List Char := (l.reverse.dropWhile isSpace).reverse

theorem trimList_eq (l : List Char) : trimList l = trimR (trimL l) := rfl

theorem trimL_idem (l : List Char) : trimL (trimL l) = trimL l :=
  dropWhile_idem isSpace l

theorem trimR_prefix (l : List Char) : trimR l <+: l := by
  have h := List.reverse_prefix.mpr (List.dropWhile_suffix (l := l.reverse) isSpace)
  rw [List.reverse_reverse] at h
  exact h

theorem trimL_trimR_of_fixed {l : List Char} (h : trimL l = l) :
    trimL (trimR l) = trimR l := by
  apply dropWhile_eq_self_of_head
  intro c hc
  obtain ⟨s, hs⟩ := trimR_prefix l
  have hl : l.head? = some c := by
    cases hR : trimR l with
    | nil => rw [hR] at hc; simp at hc
    | cons d t =>
      rw [hR] at hc
      simp at hc
      rw [← hs, hR, hc]
      rfl
  exact head_dropWhile_false isSpace l c (by rw [trimL] at h; rw [h]; exact hl)

theorem trimList_idem (l : List Char) : trimList (trimList l) = trimList l := by
  rw [trimList_eq, trimList_eq, trimL_trimR_of_fixed (trimL_idem l)]
  rw [trimR, trimR, List.reverse_reverse, dropWhile_idem]

theorem trimList_map_lowerChar (l : List Char) :
    trimList (l.map lowerChar) = (trimList l).map lowerChar := by
  have hfun : (isSpace ∘ lowerChar) = isSpace := funext isSpace_lowerChar
  unfold trimList
  rw [List.dropWhile_map, hfun, ← List.map_reverse, List.dropWhile_map, hfun,
      ← List.map_reverse]

theorem normEmail_data (s : String) :
    (normEmail s).data = (trimList s.data).map lowerChar := rfl

theorem normEmail_idem (s : String) : normEmail (normEmail s) = normEmail s := by
  have h : (normEmail (normEmail s)).data = (normEmail s).data := by
    rw [normEmail_data, normEmail_data, trimList_map_lowerChar, trimList_idem,
        List.map_map]
    congr 1
    funext c
    exact lowerChar_idem c
  cases hl : normEmail (normEmail s) with
  | mk d1 =>
    cases hr : normEmail s with
    | mk d2 =>
      rw [hl, hr] at h
      simp at h
      rw [h]

/-! ### Store-helper lemmas -/

theorem mem_upsertPending {l : List Pending} {e : String} {p q : Pending}
    (h : q ∈ upsertPending l e p) : q = p ∨ (q ∈ l ∧ q.email ≠ e) := by
  unfold upsertPending at h
  by_cases hc : l.any (fun r => r.email = e)
  · rw [if_pos hc] at h
    obtain ⟨r, hr, hrq⟩ := List.mem_map.mp h
    by_cases he : r.email = e
    · left; rw [← hrq, if_pos he]
    · right; rw [← hrq, if_neg he]; exact ⟨hr, he⟩
  · rw [if_neg hc] at h
    rcases List.mem_append.mp h with h1 | h1
    · right
      refine ⟨h1, fun hq => ?_⟩
      simp only [List.any_eq_true, decide_eq_true_eq, not_exists, not_and] at hc
      exact hc q h1 hq
    · left; simpa using h1

theorem upsertPending_email_nodup {l : List Pending} {e : String} {p : Pending}
    (hp : p.email = e) (h : (l.map Pending.email).Nodup) :
    ((upsertPending l e p).map Pending.email).Nodup := by
  unfold upsertPending
  by_cases hc : l.any (fun q => q.email = e)
  · rw [if_pos hc]
    have heq : (l.map (fun q => if q.email = e then p else q)).map Pending.email
        = l.map Pending.email := by
      rw [List.map_map]
      apply List.map_congr_left
      intro q _
      by_cases hq : q.email = e
      · simp [hq, hp]
      · simp [hq]
    rw [heq]; exact h
  · rw [if_neg hc, List.map_append]
    simp only [List.any_eq_true, decide_eq_true_eq, not_exists, not_and] at hc
    simp only [List.map_cons, List.map_nil]
    apply List.Nodup.append h (List.nodup_singleton _)
    intro x hx hx1
    simp only [List.mem_singleton] at hx1
    obtain ⟨q, hq, hqx⟩ := List.mem_map.mp hx
    exact hc q hq (by rw [← hqx] at hx1; rw [hx1, hp])

theorem filter_upsertPending {l : List Pending} {e : String} {p : Pending}
    (hp : p.email = e) (hn : (l.map Pending.email).Nodup) :
    (upsertPending l e p).filter (fun q => q.email = e) = [p] := by
  unfold upsertPending
  by_cases hc : l.any (fun q => q.email = e)
  · rw [if_pos hc]
    obtain ⟨a, hal, hae⟩ := by
      simpa only [List.any_eq_true, decide_eq_true_eq] using hc
    obtain ⟨s, t, hst⟩ := List.append_of_mem hal
    subst hst
    rw [List.map_append, List.map_cons] at hn
    have hns := List.nodup_append.mp hn
    have hs : ∀ q ∈ s, q.email ≠ e := by
      intro q hq he
      exact hns.2.2 (List.mem_map_of_mem Pending.email hq)
        (by rw [he, ← hae]; exact List.mem_cons_self _ _)
    have ht : ∀ q ∈ t, q.email ≠ e := by
      intro q hq he
      have hmem : q.email ∈ List.map Pending.email t :=
        List.mem_map_of_mem Pending.email hq
      rw [he, ← hae] at hmem
      exact (List.nodup_cons.mp hns.2.1).1 hmem
    have hms : s.map (fun q => if q.email = e then p else q) = s := by
      conv_rhs => rw [← List.map_id s]
      apply List.map_congr_left
      intro q hq
      rw [if_neg (hs q hq)]
      rfl
    have hmt : t.map (fun q => if q.email = e then p else q) = t := by
      conv_rhs => rw [← List.map_id t]
      apply List.map_congr_left
      intro q hq
      rw [if_neg (ht q hq)]
      rfl
    rw [List.map_append, List.map_cons, hms, hmt, if_pos hae,
        List.filter_append, List.filter_cons, if_pos (by simp [hp]),
        List.filter_eq_nil_iff.mpr (fun q hq => by simp [hs q hq]),
        List.filter_eq_nil_iff.mpr (fun q hq => by simp [ht q hq])]
    rfl
  · rw [if_neg hc, List.filter_append]
    simp only [List.any_eq_true, decide_eq_true_eq, not_exists, not_and] at hc
    have h1 : l.filter (fun q => q.email = e) = [] :=
      List.filter_eq_nil_iff.mpr (fun q hq => by simp [hc q hq])
    rw [h1, List.filter_cons, if_pos (by simp [hp])]
    rfl

theorem erasePending_decomp {l : List Pending} {p : Pending} (h : p ∈ l) :
    ∃ l1 l2, l = l1 ++ p :: l2 ∧ p ∉ l1 ∧ erasePending l p = l1 ++ l2 := by
  induction l with
  | nil => simp at h
  | cons q l ih =>
    by_cases hq : q = p
    · exact ⟨[], l, by rw [hq]; rfl, by simp, by simp [erasePending, hq]⟩
    · have hp : p ∈ l := by
        rcases List.mem_cons.mp h with h1 | h1
        · exact absurd h1.symm hq
        · exact h1
      obtain ⟨l1, l2, h1, h2, h3⟩ := ih hp
      refine ⟨q :: l1, l2, by rw [List.cons_append, ← h1], ?_, ?_⟩
      · intro hmem
        rcases List.mem_cons.mp hmem with h4 | h4
        · exact hq h4.symm
        · exact h2 h4
      · simp [erasePending, hq, h3]

theorem erasePending_sublist (l : List Pending) (p : Pending) :
    (erasePending l p).Sublist l := by
  induction l with
  | nil => simp [erasePending]
  | cons q l ih =>
    by_cases hq : q = p
    · simp only [erasePending, if_pos hq]
      exact List.sublist_cons_self q l
    · simp only [erasePending, if_neg hq]
      exact ih.cons₂ q

theorem mem_of_mem_erasePending {l : List Pending} {p q : Pending}
    (h : q ∈ erasePending l p) : q ∈ l :=
  (erasePending_sublist l p).mem h

theorem erasePending_length {l : List Pending} {p : Pending} (h : p ∈ l) :
    (erasePending l p).length + 1 = l.length := by
  obtain ⟨l1, l2, h1, _, h3⟩ := erasePending_decomp h
  rw [h3, h1]
  simp
  omega

theorem email_ne_of_mem_erasePending {l : List Pending} {p q : Pending}
    (hn : (l.map Pending.email).Nodup) (hp : p ∈ l) (hq : q ∈ erasePending l p) :
    q.email ≠ p.email := by
  obtain ⟨l1, l2, h1, _, h3⟩ := erasePending_decomp hp
  rw [h1, List.map_append, List.map_cons] at hn
  rw [h3] at hq
  have hns := List.nodup_append.mp hn
  intro he
  rcases List.mem_append.mp hq with h4 | h4
  · exact hns.2.2 (List.mem_map_of_mem Pending.email h4)
      (by rw [he]; exact List.mem_cons_self _ _)
  · exact (List.nodup_cons.mp hns.2.1).1
      (by rw [← he]; exact List.mem_map_of_mem Pending.email h4)

theorem replacePending_decomp {l : List Pending} {p : Pending} (p' : Pending)
    (h : p ∈ l) :
    ∃ l1 l2, l = l1 ++ p :: l2 ∧ p ∉ l1 ∧ replacePending l p p' = l1 ++ p' :: l2 := by
  induction l with
  | nil => simp at h
  | cons q l ih =>
    by_cases hq : q = p
    · exact ⟨[], l, by rw [hq]; rfl, by simp, by simp [replacePending, hq]⟩
    · have hp : p ∈ l := by
        rcases List.mem_cons.mp h with h1 | h1
        · exact absurd h1.symm hq
        · exact h1
      obtain ⟨l1, l2, h1, h2, h3⟩ := ih hp
      refine ⟨q :: l1, l2, by rw [List.cons_append, ← h1], ?_, ?_⟩
      · intro hmem
        rcases List.mem_cons.mp hmem with h4 | h4
        · exact hq h4.symm
        · exact h2 h4
      · simp [replacePending, hq, h3]

theorem mem_replacePending {l : List Pending} {p p' q : Pending}
    (h : q ∈ replacePending l p p') : q = p' ∨ q ∈ l := by
  induction l with
  | nil => simp [replacePending] at h
  | cons a l ih =>
    by_cases ha : a = p
    · simp only [replacePending, if_pos ha] at h
      rcases List.mem_cons.mp h with h1 | h1
      · exact Or.inl h1
      · exact Or.inr (List.mem_cons_of_mem a h1)
    · simp only [replacePending, if_neg ha] at h
      rcases List.mem_cons.mp h with h1 | h1
      · exact Or.inr (by rw [h1]; exact List.mem_cons_self a l)
      · rcases ih h1 with h2 | h2
        · exact Or.inl h2
        · exact Or.inr (List.mem_cons_of_mem a h2)

theorem replacePending_map_email {l : List Pending} {p p' : Pending}
    (h : p'.email = p.email) :
    (replacePending l p p').map Pending.email = l.map Pending.email := by
  induction l with
  | nil => rfl
  | cons a l ih =>
    by_cases ha : a = p
    · simp only [replacePending, if_pos ha, List.map_cons]
      rw [h, ha]
    · simp only [replacePending, if_neg ha, List.map_cons, ih]

theorem filter_replacePending {l : List Pending} {p p' : Pending} {E : String}
    (hmem : p ∈ l) (hp : p.email = E) (hp' : p'.email = E)
    (hn : (l.map Pending.email).Nodup) :
    (replacePending l p p').filter (fun q => q.email = E) = [p'] := by
  obtain ⟨l1, l2, h1, _, h3⟩ := replacePending_decomp p' hmem
  rw [h1, List.map_append, List.map_cons] at hn
  have hns := List.nodup_append.mp hn
  have hl1 : l1.filter (fun q => q.email = E) = [] := by
    apply List.filter_eq_nil_iff.mpr
    intro q hq hqe
    exact hns.2.2 (List.mem_map_of_mem Pending.email hq)
      (by rw [show q.email = E from by simpa using hqe, ← hp]; exact List.mem_cons_self _ _)
  have hl2 : l2.filter (fun q => q.email = E) = [] := by
    apply List.filter_eq_nil_iff.mpr
    intro q hq hqe
    have hmem : q.email ∈ List.map Pending.email l2 :=
      List.mem_map_of_mem Pending.email hq
    rw [show q.email = E from by simpa using hqe, ← hp] at hmem
    exact (List.nodup_cons.mp hns.2.1).1 hmem
  rw [h3, List.filter_append, hl1, List.filter_cons, if_pos (by simp [hp'])]
  rw [List.nil_append, hl2]

theorem find?_of_filter_single {l : List Pending} {pred : Pending → Bool} {p : Pending}
    (h : l.filter pred = [p]) : l.find? pred = some p := by
  induction l with
  | nil => simp at h
  | cons a l ih =>
    by_cases ha : pred a
    · rw [List.filter_cons, if_pos ha] at h
      simp only [List.cons.injEq] at h
      rw [List.find?_cons_of_pos _ ha, h.1]
    · rw [List.filter_cons, if_neg ha] at h
      rw [List.find?_cons_of_neg _ ha]
      exact ih h

theorem token_notin_erase_of_filter_single {l : List Pending} {p : Pending}
    {T : String} (hft : l.filter (fun q => q.token = T) = [p]) :
    ∀ q ∈ erasePending l p, q.token ≠ T := by
  have hpl : p ∈ l := List.mem_of_mem_filter (by rw [hft]; exact List.mem_singleton_self p)
  have hpt : p.token = T := by
    have := List.of_mem_filter (a := p) (by rw [hft]; exact List.mem_singleton_self p)
    simpa using this
  obtain ⟨l1, l2, h1, _, h3⟩ := erasePending_decomp hpl
  rw [h1, List.filter_append, List.filter_cons, if_pos (by simp [hpt])] at hft
  have hl1 : l1.filter (fun q => q.token = T) = [] := by
    cases he : l1.filter (fun q => q.token = T) with
    | nil => rfl
    | cons x xs =>
      rw [he] at hft
      have := congrArg List.length hft
      simp at this
  rw [hl1] at hft
  simp only [List.nil_append, List.cons.injEq] at hft
  intro q hq hqt
  rw [h3] at hq
  rcases List.mem_append.mp hq with h4 | h4
  · have := List.filter_eq_nil_iff.mp hl1 q h4
    exact this (by simp [hqt])
  · have := List.filter_eq_nil_iff.mp hft.2 q h4
    exact this (by simp [hqt])

/-! ### Invariant preservation -/

theorem checkVerification_state (db : DB) (e : String) :
    (checkVerification db e).2 = db := by
  unfold checkVerification
  by_cases h1 : e = ""
  · rw [if_pos h1]
  · rw [if_neg h1]
    cases db.users.find? (fun u => u.email = normEmail e ∧ u.isEmailVerified) <;> rfl

theorem inv_signup (db : DB) (inp : SignupInput) (h t : String) (now : Nat)
    (m : Bool) (hi : db.inv) : ((signup db inp h t now m).2).inv := by
  unfold signup
  by_cases h1 : inp.email = "" ∨ inp.password = "" ∨ inp.fullName = ""
  · rw [if_pos h1]; exact hi
  rw [if_neg h1]
  by_cases h2 : inp.password.length < 6
  · rw [if_pos h2]; exact hi
  rw [if_neg h2]
  by_cases h3 : db.users.any (fun u => u.email = normEmail inp.email)
  · rw [if_pos h3]; exact hi
  rw [if_neg h3]
  obtain ⟨hnorm, hnodup, hdual⟩ := hi
  refine ⟨?_, ?_, ?_⟩
  · intro q hq
    rcases mem_upsertPending hq with h4 | ⟨h4, _⟩
    · rw [h4]; exact normEmail_idem inp.email
    · exact hnorm q h4
  · exact upsertPending_email_nodup rfl hnodup
  · intro q hq u hu
    rcases mem_upsertPending hq with h4 | ⟨h4, _⟩
    · rw [h4]
      intro he
      exact h3 (List.any_eq_true.mpr ⟨u, hu, by simpa using he⟩)
    · exact hdual q h4 u hu

theorem inv_verifyEmail (db : DB) (T : String) (now : Nat) (hi : db.inv) :
    ((verifyEmail db T now).2).inv := by
  unfold verifyEmail
  obtain ⟨hnorm, hnodup, hdual⟩ := hi
  cases hf : db.pendings.find? (fun p => p.token = T) with
  | none => simp only [hf]; exact ⟨hnorm, hnodup, hdual⟩
  | some p =>
    simp only [hf]
    have hpl : p ∈ db.pendings := List.mem_of_find?_eq_some hf
    have hsub := erasePending_sublist db.pendings p
    have hnorm' : ∀ q ∈ erasePending db.pendings p, normEmail q.email = q.email :=
      fun q hq => hnorm q (hsub.mem hq)
    have hnodup' : ((erasePending db.pendings p).map Pending.email).Nodup :=
      hnodup.sublist (hsub.map Pending.email)
    have hdual' : ∀ q ∈ erasePending db.pendings p, ∀ u ∈ db.users,
        u.email ≠ q.email :=
      fun q hq u hu => hdual q (hsub.mem hq) u hu
    by_cases h1 : p.expiresAt < now
    · rw [if_pos h1]; exact ⟨hnorm', hnodup', hdual'⟩
    rw [if_neg h1]
    by_cases h2 : db.users.any (fun u => u.email = normEmail p.email)
    · rw [if_pos h2]; exact ⟨hnorm', hnodup', hdual'⟩
    rw [if_neg h2]
    refine ⟨hnorm', hnodup', ?_⟩
    intro q hq u hu
    rcases List.mem_append.mp hu with hu1 | hu1
    · exact hdual' q hq u hu1
    · have hue : u.email = p.email := by
        have h5 : u.email = normEmail p.email := by
          have h6 := List.mem_singleton.mp hu1
          rw [h6]
          rfl
        rw [h5]
        exact hnorm p hpl
      rw [hue]
      exact (email_ne_of_mem_erasePending hnodup hpl hq).symm

theorem inv_resend (db : DB) (e t : String) (now : Nat) (m : Bool) (hi : db.inv) :
    ((resend db e t now m).2).inv := by
  unfold resend
  obtain ⟨hnorm, hnodup, hdual⟩ := hi
  by_cases h1 : e = ""
  · rw [if_pos h1]; exact ⟨hnorm, hnodup, hdual⟩
  rw [if_neg h1]
  by_cases h2 : db.users.any (fun u => u.email = normEmail e)
  · rw [if_pos h2]; exact ⟨hnorm, hnodup, hdual⟩
  rw [if_neg h2]
  cases hf : db.pendings.find? (fun p => p.email = normEmail e) with
  | none => simp only [hf]; exact ⟨hnorm, hnodup, hdual⟩
  | some p =>
    simp only [hf]
    have hpl : p ∈ db.pendings := List.mem_of_find?_eq_some hf
    have hmain : (DB.mk db.users (replacePending db.pendings p
        { p with token := t, expiresAt := now + dayMs })).inv := by
      refine ⟨?_, ?_, ?_⟩
      · intro q hq
        rcases mem_replacePending hq with h4 | h4
        · rw [h4]; exact hnorm p hpl
        · exact hnorm q h4
      · have hre := @replacePending_map_email db.pendings p
          { p with token := t, expiresAt := now + dayMs } rfl
        simp only [hre]
        exact hnodup
      · intro q hq u hu
        rcases mem_replacePending hq with h4 | h4
        · rw [h4]; exact hdual p hpl u hu
        · exact hdual q h4 u hu
    by_cases h3 : m
    · rw [if_pos h3]; exact hmain
    · rw [if_neg h3]; exact hmain

/-! ### Branch equations for `signup` -/

theorem signup_eq_missing {db : DB} {inp : SignupInput} {hashed tok : String}
    {now : Nat} {mailOk : Bool}
    (h : inp.email = "" ∨ inp.password = "" ∨ inp.fullName = "") :
    signup db inp hashed tok now mailOk = (.missingFields, db) := by
  unfold signup; rw [if_pos h]

theorem signup_eq_tooShort {db : DB} {inp : SignupInput} {hashed tok : String}
    {now : Nat} {mailOk : Bool}
    (h1 : ¬(inp.email = "" ∨ inp.password = "" ∨ inp.fullName = ""))
    (h2 : inp.password.length < 6) :
    signup db inp hashed tok now mailOk = (.passwordTooShort, db) := by
  unfold signup; rw [if_neg h1, if_pos h2]

theorem signup_eq_dup {db : DB} {inp : SignupInput} {hashed tok : String}
    {now : Nat} {mailOk : Bool}
    (h1 : ¬(inp.email = "" ∨ inp.password = "" ∨ inp.fullName = ""))
    (h2 : ¬ inp.password.length < 6)
    (h3 : db.users.any (fun u => u.email = normEmail inp.email) = true) :
    signup db inp hashed tok now mailOk = (.emailAlreadyRegistered, db) := by
  unfold signup; rw [if_neg h1, if_neg h2, if_pos h3]

theorem signup_eq_created {db : DB} {inp : SignupInput} {hashed tok : String}
    {now : Nat} {mailOk : Bool}
    (h1 : ¬(inp.email = "" ∨ inp.password = "" ∨ inp.fullName = ""))
    (h2 : ¬ inp.password.length < 6)
    (h3 : db.users.any (fun u => u.email = normEmail inp.email) = false) :
    signup db inp hashed tok now mailOk
      = (.created true "Please check your email to verify your account." inp.email,
         DB.mk db.users (upsertPending db.pendings (normEmail inp.email)
           ⟨normEmail inp.email, hashed, trimStr inp.fullName, strOrNone inp.phone,
            tok, now + dayMs⟩)) := by
  unfold signup; rw [if_neg h1, if_neg h2, if_neg (by simp [h3])]

/-! ### Claim theorems -/

/-- Claim C3: mail-dispatch failure is asymmetric. For `POST /signup` the
result (response and state) is identical whether or not the mail send
throws (the error is caught and logged); for `POST /resend-verification`
the state update is the same but a mail failure surfaces as the 500
failure result exactly when the success path would have returned 200. -/
theorem c3_mail_failure_asymmetry :
    (∀ (db : DB) (inp : SignupInput) (hashed tok : String) (now : Nat),
      signup db inp hashed tok now false = signup db inp hashed tok now true) ∧
    (∀ (db : DB) (e tok : String) (now : Nat),
      (resend db e tok now false).2 = (resend db e tok now true).2 ∧
      ((resend db e tok now false).1 = .mailFailed ↔
        (resend db e tok now true).1 = .ok)) := by
  constructor
  · intro db inp hashed tok now; rfl
  · intro db e tok now
    by_cases h1 : e = ""
    · simp [resend, h1]
    by_cases h2 : db.users.any (fun u => u.email = normEmail e)
    · simp [resend, h1, h2]
    cases hf : db.pendings.find? (fun p => p.email = normEmail e) with
    | none => simp [resend, h1, h2, hf]
    | some p => simp [resend, h1, h2, hf]

/-- Claim C4: a token that matches no pending registration, and a token
that matches one whose `expiresAt` is in the past, yield the same
`invalidOrExpired` outcome; in the expired case the handler also deletes
the stale record (users untouched, pendings shrink by the found record). -/
theorem c4_invalid_and_expired_indistinguishable (db : DB) (T : String) (now : Nat) :
    (db.pendings.find? (fun p => p.token = T) = none →
      verifyEmail db T now = (.invalidOrExpired, db)) ∧
    (∀ p, db.pendings.find? (fun p => p.token = T) = some p → p.expiresAt < now →
      (verifyEmail db T now).1 = .invalidOrExpired ∧
      (verifyEmail db T now).2.users = db.users ∧
      (verifyEmail db T now).2.pendings = erasePending db.pendings p ∧
      (erasePending db.pendings p).length + 1 = db.pendings.length) := by
  constructor
  · intro hf
    unfold verifyEmail
    simp only [hf]
  · intro p hf hexp
    unfold verifyEmail
    simp only [hf]
    rw [if_pos hexp]
    exact ⟨rfl, rfl, rfl, erasePending_length (List.mem_of_find?_eq_some hf)⟩

/-- Claim C4 witness: concrete unknown token and concrete expired record. -/
theorem c4_witness :
    verifyEmail (DB.mk [] []) "nope" 9 = (.invalidOrExpired, DB.mk [] []) ∧
    (verifyEmail (DB.mk [] [⟨"a@x.com", "H", "Ana", none, "T", 5⟩]) "T" 9).1
      = .invalidOrExpired ∧
    (verifyEmail (DB.mk [] [⟨"a@x.com", "H", "Ana", none, "T", 5⟩]) "T" 9).2.users = [] ∧
    (verifyEmail (DB.mk [] [⟨"a@x.com", "H", "Ana", none, "T", 5⟩]) "T" 9).2.pendings
      = erasePending [⟨"a@x.com", "H", "Ana", none, "T", 5⟩]
          ⟨"a@x.com", "H", "Ana", none, "T", 5⟩ ∧
    (erasePending [⟨"a@x.com", "H", "Ana", none, "T", 5⟩]
        ⟨"a@x.com", "H", "Ana", none, "T", 5⟩).length + 1
      = [(⟨"a@x.com", "H", "Ana", none, "T", 5⟩ : Pending)].length :=
  ⟨(c4_invalid_and_expired_indistinguishable (DB.mk [] []) "nope" 9).1 (by decide),
   (c4_invalid_and_expired_indistinguishable
      (DB.mk [] [⟨"a@x.com", "H", "Ana", none, "T", 5⟩]) "T" 9).2
    ⟨"a@x.com", "H", "Ana", none, "T", 5⟩ (by decide) (by decide)⟩

/-- Claim C7: `GET /check-verification` never mutates the store; for a
nonempty email it answers `notVerified` exactly when no verified account
matches the (normalized) email, and otherwise returns `verified` with the
found account's freshly signed claims and profile. -/
theorem c7_check_verification_pure_read (db : DB) (e : String) :
    (checkVerification db e).2 = db ∧
    (e ≠ "" →
      (((checkVerification db e).1 = .notVerified) ↔
        db.users.find? (fun u => u.email = normEmail e ∧ u.isEmailVerified) = none) ∧
      (∀ u, db.users.find? (fun u => u.email = normEmail e ∧ u.isEmailVerified)
          = some u →
        (checkVerification db e).1 = .verified u.claims u.profile)) := by
  refine ⟨checkVerification_state db e, fun he => ?_⟩
  unfold checkVerification
  rw [if_neg he]
  cases hf : db.users.find? (fun u => u.email = normEmail e ∧ u.isEmailVerified) with
  | none =>
    simp only [hf]
    exact ⟨by simp, fun u hu => by cases hu⟩
  | some u =>
    simp only [hf]
    refine ⟨by simp, fun v hv => ?_⟩
    cases hv
    rfl

/-- Claim C7 witness: a store with one verified account. -/
theorem c7_witness :
    (checkVerification
        (DB.mk [⟨"a@x.com", some "H", "Ana", none, "client", "local", true, none, none⟩]
          []) "a@x.com").1
      = .verified ⟨"a@x.com", "client"⟩ ⟨"a@x.com", "Ana", "client", none, none⟩ :=
  ((c7_check_verification_pure_read
      (DB.mk [⟨"a@x.com", some "H", "Ana", none, "client", "local", true, none, none⟩] [])
      "a@x.com").2 (by decide)).2
    ⟨"a@x.com", some "H", "Ana", none, "client", "local", true, none, none⟩ (by decide)

/-- Claim C8: signup with missing email/password/fullName or a password
shorter than 6 characters fails with a validation error and leaves the
state unchanged; an otherwise-valid signup whose normalized email already
has an account fails with `emailAlreadyRegistered`, also unchanged. -/
theorem c8_signup_validation_and_duplicate (db : DB) (inp : SignupInput)
    (hashed tok : String) (now : Nat) (mailOk : Bool) :
    ((inp.email = "" ∨ inp.password = "" ∨ inp.fullName = ""
        ∨ inp.password.length < 6) →
      (signup db inp hashed tok now mailOk).1.isValidationError = true ∧
      (signup db inp hashed tok now mailOk).2 = db) ∧
    (inp.email ≠ "" → inp.password ≠ "" → inp.fullName ≠ "" →
      ¬ inp.password.length < 6 →
      db.users.any (fun u => u.email = normEmail inp.email) = true →
      signup db inp hashed tok now mailOk = (.emailAlreadyRegistered, db)) := by
  constructor
  · intro h
    unfold signup
    by_cases h1 : inp.email = "" ∨ inp.password = "" ∨ inp.fullName = ""
    · rw [if_pos h1]; exact ⟨rfl, rfl⟩
    · have h2 : inp.password.length < 6 := by tauto
      rw [if_neg h1, if_pos h2]; exact ⟨rfl, rfl⟩
  · intro h1 h2 h3 h4 h5
    unfold signup
    rw [if_neg (by tauto), if_neg h4, if_pos h5]

/-- Claim C8 witness: short password, then duplicate account. -/
theorem c8_witness :
    ((signup (DB.mk [] []) ⟨"a@x.com", "abc", "Ana", none⟩ "H" "T" 0 true).1.isValidationError
        = true ∧
      (signup (DB.mk [] []) ⟨"a@x.com", "abc", "Ana", none⟩ "H" "T" 0 true).2
        = DB.mk [] []) ∧
    signup
        (DB.mk [⟨"a@x.com", some "H", "Ana", none, "client", "local", true, none, none⟩]
          [])
        ⟨"a@x.com", "secret1", "Ana", none⟩ "H" "T" 0 true
      = (.emailAlreadyRegistered,
          DB.mk [⟨"a@x.com", some "H", "Ana", none, "client", "local", true, none, none⟩]
            []) :=
  ⟨(c8_signup_validation_and_duplicate (DB.mk [] [])
        ⟨"a@x.com", "abc", "Ana", none⟩ "H" "T" 0 true).1 (by decide),
   (c8_signup_validation_and_duplicate
        (DB.mk [⟨"a@x.com", some "H", "Ana", none, "client", "local", true, none, none⟩]
          [])
        ⟨"a@x.com", "secret1", "Ana", none⟩ "H" "T" 0 true).2
      (by decide) (by decide) (by decide) (by decide) (by decide)⟩

/-- Claim C9 counterexample: a successful signup echoes the submitted
email verbatim in the 201 body, and that string differs from the
normalized (lowercased, trimmed) email the claim requires. -/
theorem c9_counterexample :
    (signup (DB.mk [] []) ⟨"Ana@X.com", "secret1", "Ana", none⟩ "H" "T" 0 true).1
      = SignupResult.created true
          "Please check your email to verify your account." "Ana@X.com" ∧
    normEmail "Ana@X.com" ≠ "Ana@X.com" := by
  decide

/-- Claim C9 amended: the signup response is independent of the password
digest, the verification token and the mail outcome (so it can reveal
none of them), and a success response carries exactly the email as
submitted (which need not be in normalized form). -/
theorem c9_amended (db : DB) (inp : SignupInput) (ha1 tk1 ha2 tk2 : String)
    (now : Nat) (m1 m2 : Bool) :
    (signup db inp ha1 tk1 now m1).1 = (signup db inp ha2 tk2 now m2).1 ∧
    (∀ rv msg em, (signup db inp ha1 tk1 now m1).1 = .created rv msg em →
      em = inp.email) := by
  by_cases hA : inp.email = "" ∨ inp.password = "" ∨ inp.fullName = ""
  · rw [signup_eq_missing hA, signup_eq_missing hA]
    exact ⟨rfl, fun rv msg em h => by cases h⟩
  by_cases hB : inp.password.length < 6
  · rw [signup_eq_tooShort hA hB, signup_eq_tooShort hA hB]
    exact ⟨rfl, fun rv msg em h => by cases h⟩
  by_cases hC : db.users.any (fun u => u.email = normEmail inp.email)
  · rw [signup_eq_dup hA hB hC, signup_eq_dup hA hB hC]
    exact ⟨rfl, fun rv msg em h => by cases h⟩
  have hC' : db.users.any (fun u => u.email = normEmail inp.email) = false := by
    simpa using hC
  rw [signup_eq_created hA hB hC', signup_eq_created hA hB hC']
  refine ⟨rfl, fun rv msg em h => ?_⟩
  have h' : SignupResult.created true
      "Please check your email to verify your account." inp.email
      = SignupResult.created rv msg em := h
  injection h' with hr hm he
  exact he.symm

/-- Claim C9 amended witness. -/
theorem c9_amended_witness :
    (signup (DB.mk [] []) ⟨"a@x.com", "secret1", "Ana", none⟩ "H1" "T1" 0 true).1
      = (signup (DB.mk [] []) ⟨"a@x.com", "secret1", "Ana", none⟩ "H2" "T2" 0 false).1 ∧
    "a@x.com" = "a@x.com" :=
  ⟨(c9_amended (DB.mk [] []) ⟨"a@x.com", "secret1", "Ana", none⟩
      "H1" "T1" "H2" "T2" 0 true false).1,
   (c9_amended (DB.mk [] []) ⟨"a@x.com", "secret1", "Ana", none⟩
      "H1" "T1" "H2" "T2" 0 true false).2 true
      "Please check your email to verify your account." "a@x.com" (by decide)⟩

/-- Claim C10: when login finds an account that is unverified and not a
google account, the 403 `EMAIL_NOT_VERIFIED` response (carrying the
account's stored email) is produced before any password comparison: the
result is the same for any two supplied passwords and any two compare
oracles. -/
theorem c10_login_unverified_before_password (db : DB) (e p1 p2 : String)
    (cp1 cp2 : String → String → Bool) (u : Account)
    (he : e ≠ "") (hp1 : p1 ≠ "") (hp2 : p2 ≠ "")
    (hu : db.users.find? (fun v => v.email = normEmail e) = some u)
    (hv : u.isEmailVerified = false) (hg : u.authProvider ≠ "google") :
    login db e p1 cp1 = .emailNotVerified u.email ∧
    login db e p1 cp1 = login db e p2 cp2 := by
  have hl : ∀ (p : String) (cp : String → String → Bool), p ≠ "" →
      login db e p cp = .emailNotVerified u.email := by
    intro p cp hp
    unfold login
    rw [if_neg (by tauto)]
    simp only [hu]
    rw [if_pos ⟨hv, hg⟩]
  exact ⟨hl p1 cp1 hp1, by rw [hl p1 cp1 hp1, hl p2 cp2 hp2]⟩

/-- Claim C10 witness: concrete unverified local account, right vs wrong
password oracle. -/
theorem c10_witness :
    login
        (DB.mk [⟨"a@x.com", some "H", "Ana", none, "client", "local", false, none, none⟩]
          [])
        "a@x.com" "secret1" (fun _ _ => true)
      = .emailNotVerified "a@x.com" ∧
    login
        (DB.mk [⟨"a@x.com", some "H", "Ana", none, "client", "local", false, none, none⟩]
          [])
        "a@x.com" "secret1" (fun _ _ => true)
      = login
          (DB.mk [⟨"a@x.com", some "H", "Ana", none, "client", "local", false, none, none⟩]
            [])
          "a@x.com" "wrongpw" (fun _ _ => false) :=
  c10_login_unverified_before_password
    (DB.mk [⟨"a@x.com", some "H", "Ana", none, "client", "local", false, none, none⟩] [])
    "a@x.com" "secret1" "wrongpw" (fun _ _ => true) (fun _ _ => false)
    ⟨"a@x.com", some "H", "Ana", none, "client", "local", false, none, none⟩
    (by decide) (by decide) (by decide) (by decide) (by decide) (by decide)

/-- Claim C5: two successful signups with the same email (before
verification) leave exactly one pending record for that email — the
upsert keyed by email — whose digest, name, phone, token and expiry are
wholly those of the second call; accounts are untouched. -/
theorem c5_signup_twice_single_upsert (db : DB) (inp1 inp2 : SignupInput)
    (dg1 tk1 dg2 tk2 : String) (n1 n2 : Nat) (m1 m2 : Bool)
    (hemail : inp2.email = inp1.email)
    (hn : (db.pendings.map Pending.email).Nodup)
    (hv1 : ¬(inp1.email = "" ∨ inp1.password = "" ∨ inp1.fullName = ""))
    (hv1d : ¬ inp1.password.length < 6)
    (hv2 : ¬(inp2.email = "" ∨ inp2.password = "" ∨ inp2.fullName = ""))
    (hv2d : ¬ inp2.password.length < 6)
    (hacc : db.users.any (fun u => u.email = normEmail inp1.email) = false) :
    ((signup (signup db inp1 dg1 tk1 n1 m1).2 inp2 dg2 tk2 n2 m2).2).pendings.filter
        (fun q => q.email = normEmail inp2.email)
      = [⟨normEmail inp2.email, dg2, trimStr inp2.fullName, strOrNone inp2.phone,
          tk2, n2 + dayMs⟩] ∧
    ((signup (signup db inp1 dg1 tk1 n1 m1).2 inp2 dg2 tk2 n2 m2).2).users
      = db.users := by
  have hE : normEmail inp2.email = normEmail inp1.email := by rw [hemail]
  rw [signup_eq_created hv1 hv1d hacc]
  have hacc2 : (DB.mk db.users (upsertPending db.pendings (normEmail inp1.email)
      ⟨normEmail inp1.email, dg1, trimStr inp1.fullName, strOrNone inp1.phone,
       tk1, n1 + dayMs⟩)).users.any (fun u => u.email = normEmail inp2.email)
      = false := by
    simp only [hE]
    exact hacc
  rw [signup_eq_created hv2 hv2d hacc2]
  constructor
  · exact filter_upsertPending rfl (upsertPending_email_nodup rfl hn)
  · rfl

/-- Claim C5 witness: two concrete signups for the same address. -/
theorem c5_witness :
    ((signup (signup (DB.mk [] []) ⟨"a@x.com", "secret1", "Ana", none⟩
          "D1" "T1" 0 true).2
        ⟨"a@x.com", "secret2", "Anna", some "99"⟩ "D2" "T2" 7 false).2).pendings.filter
        (fun q => q.email = normEmail "a@x.com")
      = [⟨normEmail "a@x.com", "D2", trimStr "Anna", strOrNone (some "99"),
          "T2", 7 + dayMs⟩] ∧
    ((signup (signup (DB.mk [] []) ⟨"a@x.com", "secret1", "Ana", none⟩
          "D1" "T1" 0 true).2
        ⟨"a@x.com", "secret2", "Anna", some "99"⟩ "D2" "T2" 7 false).2).users = [] :=
  c5_signup_twice_single_upsert (DB.mk [] [])
    ⟨"a@x.com", "secret1", "Ana", none⟩ ⟨"a@x.com", "secret2", "Anna", some "99"⟩
    "D1" "T1" "D2" "T2" 0 7 true false (by decide) (by decide)
    (by decide) (by decide) (by decide) (by decide) (by decide)

/-- Claim C6: resend fails with `alreadyVerified` (400) whenever an
account exists for the email, with `noPending` (404) when neither an
account nor a pending record exists, and otherwise rewrites the existing
pending record in place with a fresh token and a fresh `now + 24h`
expiry, leaving exactly one pending record for the email. -/
theorem c6_resend_outcomes (db : DB) (e tok : String) (now : Nat) (mailOk : Bool) :
    (e ≠ "" → db.users.any (fun u => u.email = normEmail e) = true →
      resend db e tok now mailOk = (.alreadyVerified, db)) ∧
    (e ≠ "" → db.users.any (fun u => u.email = normEmail e) = false →
      db.pendings.find? (fun p => p.email = normEmail e) = none →
      resend db e tok now mailOk = (.noPending, db)) ∧
    (∀ p, e ≠ "" → db.users.any (fun u => u.email = normEmail e) = false →
      db.pendings.find? (fun p => p.email = normEmail e) = some p →
      (db.pendings.map Pending.email).Nodup →
      (resend db e tok now mailOk).2.users = db.users ∧
      (resend db e tok now mailOk).2.pendings.filter (fun q => q.email = normEmail e)
        = [{ p with token := tok, expiresAt := now + dayMs }]) := by
  refine ⟨?_, ?_, ?_⟩
  · intro he ha
    unfold resend
    rw [if_neg he, if_pos ha]
  · intro he ha hf
    unfold resend
    rw [if_neg he, if_neg (by simp [ha])]
    simp only [hf]
  · intro p he ha hf hn
    have hpe : p.email = normEmail e := by simpa using List.find?_some hf
    have hpl : p ∈ db.pendings := List.mem_of_find?_eq_some hf
    unfold resend
    rw [if_neg he, if_neg (by simp [ha])]
    simp only [hf]
    have hstate : ∀ r : ResendResult × DB,
        r = (if mailOk
              then (.ok, DB.mk db.users (replacePending db.pendings p
                     { p with token := tok, expiresAt := now + dayMs }))
              else (.mailFailed, DB.mk db.users (replacePending db.pendings p
                     { p with token := tok, expiresAt := now + dayMs }))) →
        r.2 = DB.mk db.users (replacePending db.pendings p
               { p with token := tok, expiresAt := now + dayMs }) := by
      intro r hr
      by_cases hm : mailOk
      · rw [hr, if_pos hm]
      · rw [hr, if_neg hm]
    have h2 := hstate _ rfl
    rw [h2]
    exact ⟨rfl, filter_replacePending hpl hpe hpe hn⟩

/-- Claim C6 witness: all three branches on concrete stores. -/
theorem c6_witness :
    resend
        (DB.mk [⟨"a@x.com", some "H", "Ana", none, "client", "local", true, none, none⟩]
          [])
        "a@x.com" "T2" 7 true
      = (.alreadyVerified,
         DB.mk [⟨"a@x.com", some "H", "Ana", none, "client", "local", true, none, none⟩]
           []) ∧
    resend (DB.mk [] []) "a@x.com" "T2" 7 true = (.noPending, DB.mk [] []) ∧
    ((resend (DB.mk [] [⟨"a@x.com", "D1", "Ana", none, "T1", 3⟩]) "a@x.com" "T2" 7
        true).2.users = [] ∧
      (resend (DB.mk [] [⟨"a@x.com", "D1", "Ana", none, "T1", 3⟩]) "a@x.com" "T2" 7
          true).2.pendings.filter (fun q => q.email = normEmail "a@x.com")
        = [⟨"a@x.com", "D1", "Ana", none, "T2", 7 + dayMs⟩]) :=
  ⟨(c6_resend_outcomes
      (DB.mk [⟨"a@x.com", some "H", "Ana", none, "client", "local", true, none, none⟩] [])
      "a@x.com" "T2" 7 true).1 (by decide) (by decide),
   (c6_resend_outcomes (DB.mk [] []) "a@x.com" "T2" 7 true).2.1
      (by decide) (by decide) (by decide),
   (c6_resend_outcomes (DB.mk [] [⟨"a@x.com", "D1", "Ana", none, "T1", 3⟩])
      "a@x.com" "T2" 7 true).2.2 ⟨"a@x.com", "D1", "Ana", none, "T1", 3⟩
      (by decide) (by decide) (by decide) (by decide)⟩

/-- Claim C1 counterexample: after a valid signup, the first
`verify-email` call with the token succeeds, but the second sequential
call with the same token returns the `invalidOrExpired` (400) outcome —
not the `alreadyVerified` success page the claim asserts — because the
pending record was already deleted. -/
theorem c1_counterexample :
    (verifyEmail (signup (DB.mk [] []) ⟨"a@x.com", "secret1", "Ana", none⟩
        "H" "T" 0 true).2 "T" 5).1 = .verified ∧
    (verifyEmail (verifyEmail (signup (DB.mk [] [])
        ⟨"a@x.com", "secret1", "Ana", none⟩ "H" "T" 0 true).2 "T" 5).2 "T" 6).1
      = .invalidOrExpired ∧
    (verifyEmail (verifyEmail (signup (DB.mk [] [])
        ⟨"a@x.com", "secret1", "Ana", none⟩ "H" "T" 0 true).2 "T" 5).2 "T" 6).1
      ≠ .alreadyVerified := by
  decide

/-- Claim C1 amended: for a live (unique, unexpired) token of an
unconsumed signup, the first `verify-email` call creates exactly one
account for the pending email and deletes the pending record; a second
sequential call with the same token finds no pending record, returns the
`invalidOrExpired` outcome (not the `alreadyVerified` page, which needs
the pending record to still coexist with an account) and performs no
writes. -/
theorem c1_amended (db : DB) (T : String) (now now' : Nat) (p : Pending)
    (hft : db.pendings.filter (fun q => q.token = T) = [p])
    (hexp : ¬ p.expiresAt < now)
    (hacc : db.users.any (fun u => u.email = normEmail p.email) = false) :
    verifyEmail db T now
      = (.verified, DB.mk (db.users ++ [accountOfPending p])
          (erasePending db.pendings p)) ∧
    (db.users ++ [accountOfPending p]).countP
        (fun u => u.email = normEmail p.email) = 1 ∧
    (∀ q ∈ erasePending db.pendings p, q.token ≠ T) ∧
    verifyEmail (DB.mk (db.users ++ [accountOfPending p])
        (erasePending db.pendings p)) T now'
      = (.invalidOrExpired,
         DB.mk (db.users ++ [accountOfPending p]) (erasePending db.pendings p)) := by
  have hf : db.pendings.find? (fun q => q.token = T) = some p :=
    find?_of_filter_single hft
  have hnot := token_notin_erase_of_filter_single hft
  refine ⟨?_, ?_, hnot, ?_⟩
  · unfold verifyEmail
    simp only [hf]
    rw [if_neg hexp, if_neg (by simp [hacc])]
  · rw [List.countP_append]
    have h0 : db.users.countP (fun u => u.email = normEmail p.email) = 0 := by
      apply List.countP_eq_zero.mpr
      intro u hu
      simp only [List.any_eq_false, decide_eq_true_eq] at hacc
      simp [hacc u hu]
    rw [h0]
    simp [accountOfPending]
  · have hnone : (erasePending db.pendings p).find? (fun q => q.token = T) = none :=
      List.find?_eq_none.mpr (fun q hq => by simp [hnot q hq])
    unfold verifyEmail
    simp only [hnone]

/-- Claim C1 amended witness: concrete one-pending store. -/
theorem c1_amended_witness :
    ((DB.mk [] [⟨"a@x.com", "D", "Ana", none, "T", dayMs⟩]).users
        ++ [accountOfPending ⟨"a@x.com", "D", "Ana", none, "T", dayMs⟩]).countP
        (fun u => u.email = normEmail "a@x.com") = 1 ∧
    verifyEmail
        (DB.mk ((DB.mk [] [⟨"a@x.com", "D", "Ana", none, "T", dayMs⟩]).users
            ++ [accountOfPending ⟨"a@x.com", "D", "Ana", none, "T", dayMs⟩])
          (erasePending [⟨"a@x.com", "D", "Ana", none, "T", dayMs⟩]
            ⟨"a@x.com", "D", "Ana", none, "T", dayMs⟩)) "T" 6
      = (.invalidOrExpired,
         DB.mk ((DB.mk [] [⟨"a@x.com", "D", "Ana", none, "T", dayMs⟩]).users
            ++ [accountOfPending ⟨"a@x.com", "D", "Ana", none, "T", dayMs⟩])
           (erasePending [⟨"a@x.com", "D", "Ana", none, "T", dayMs⟩]
             ⟨"a@x.com", "D", "Ana", none, "T", dayMs⟩)) :=
  ⟨(c1_amended (DB.mk [] [⟨"a@x.com", "D", "Ana", none, "T", dayMs⟩]) "T" 5 6
      ⟨"a@x.com", "D", "Ana", none, "T", dayMs⟩
      (by decide) (by decide) (by decide)).2.1,
   (c1_amended (DB.mk [] [⟨"a@x.com", "D", "Ana", none, "T", dayMs⟩]) "T" 5 6
      ⟨"a@x.com", "D", "Ana", none, "T", dayMs⟩
      (by decide) (by decide) (by decide)).2.2.2⟩

/-- Claim C2 counterexample: signup for an email followed by google
sign-in with the same address creates the account WITHOUT deleting the
pending record, so a stable post-operation state holds both a
PendingRegistration and an Account for the same email. -/
theorem c2_counterexample :
    ((googleSignIn (signup (DB.mk [] []) ⟨"a@x.com", "secret1", "Ana", none⟩
          "H" "T" 0 true).2 true
        (some ⟨"g1", some "a@x.com", some "Greg", none⟩)).2.pendings.any
      (fun p => p.email = "a@x.com")) = true ∧
    ((googleSignIn (signup (DB.mk [] []) ⟨"a@x.com", "secret1", "Ana", none⟩
          "H" "T" 0 true).2 true
        (some ⟨"g1", some "a@x.com", some "Greg", none⟩)).2.users.any
      (fun u => u.email = "a@x.com")) = true := by
  decide

/-- Claim C2 amended: the no-dual-record invariant (with the schema
well-formedness it rests on: normalized, unique pending emails) is
preserved by signup, login, verify-email, resend and check-verification —
every operation of the subsystem except google sign-in, which violates
it. -/
theorem c2_amended (op : Op) (db : DB) (hi : db.inv) : (applyOp op db).inv := by
  cases op with
  | signup inp h t now m => exact inv_signup db inp h t now m hi
  | login e p c => exact hi
  | verifyEmail t now => exact inv_verifyEmail db t now hi
  | resend e t now m => exact inv_resend db e t now m hi
  | checkVerification e =>
    show ((checkVerification db e).2).inv
    rw [checkVerification_state db e]
    exact hi

/-- Claim C2 amended witness: one signup step from the empty store. -/
theorem c2_amended_witness :
    (applyOp (.signup ⟨"a@x.com", "secret1", "Ana", none⟩ "H" "T" 0 true)
      (DB.mk [] [])).inv :=
  c2_amended (.signup ⟨"a@x.com", "secret1", "Ana", none⟩ "H" "T" 0 true)
    (DB.mk [] []) (by decide)

end Nestoric
